import Mathlib

/-!
# Verification of the bee network core against its specification

Shallow embedding of two source files of the `bee` repository:

* `bee-network/bee-autopeering/src/discovery/query.rs` — the discovery
  scheduler's peer-selection logic (`select_peers_to_query`,
  `peer_to_reverify`, and the hand-written single-pass top-3 fold);
* `bee-protocol/src/worker/message/processor.rs` — the message ingestion
  pipeline (`ProcessorWorker::start`'s event loop body).

Pure data is translated directly; effectful calls to downstream workers are
recorded as an explicit, ordered effect trace; the store and the
requested-messages map are explicit state threaded through the pipeline
step.  Randomness (`thread_rng().gen_range(0..len)`) is modelled by an index
parameter constrained to the same range.
-/

/-! ## Autopeering: data model -/

/-- An active peer record.  Mirrors the fields of `ActivePeer` used by
`query.rs` (`peer_id`, `metrics().last_new_peers()`) together with the
`verified_count` and recency-order fields that the spec's data model names
(spec §3). -/
structure ActivePeer where
  peerId : Nat
  verifiedCount : Nat
  lastNewPeers : Nat
  lastVerificationOrder : Nat
  deriving DecidableEq, Repr

/-- Modelled from the spec: `manager::get_verified_peers` is not under
`src/`; spec §4.1/§4.2 defines the verified subset as the entries with
`verified_count ≥ 1`, in list order. -/
def get_verified_peers (active : List ActivePeer) : List ActivePeer :=
  active.filter (fun p => 1 ≤ p.verifiedCount)

/-- Modelled from the spec: `ActivePeersList::get_oldest` is not under
`src/`; the registry keeps the most-recently-reverified entry first
(spec §4.2: "latest = the first element"), so the oldest
(least-recently-reverified) entry is the last one. -/
def get_oldest (active : List ActivePeer) : Option ActivePeer :=
  active.getLast?

/-- `peer_to_reverify` from `query.rs`: the oldest peer's id, or `none` if
the list is empty. -/
def peer_to_reverify (active : List ActivePeer) : Option Nat :=
  (get_oldest active).map (fun p => p.peerId)

/-- The externally visible outcome of one reverify tick. -/
inductive ReverifyOutcome where
  | verifyPeer (id : Nat)
  deriving DecidableEq, Repr

/-- The body of `reverify_fn` in `query.rs`: if `peer_to_reverify` yields a
peer, a verification task is spawned for it; otherwise the tick only logs
and does nothing. -/
def reverify_fn (active : List ActivePeer) : Option ReverifyOutcome :=
  (peer_to_reverify active).map (fun id => ReverifyOutcome.verifyPeer id)

/-! ## Autopeering: the single-pass top-3 fold -/

/-- Accumulator of the fold in `select_peers_to_query`: three optional
slots, minimum-metric slot first. -/
abbrev Heaviest3 := Option ActivePeer × Option ActivePeer × Option ActivePeer

/-- One step of the fold in `select_peers_to_query` (`query.rs` lines
128–156), translated arm by arm; the Rust match arms are tried top-down,
which the nested `if` mirrors. -/
def heaviestStep (acc : Heaviest3) (p : ActivePeer) : Heaviest3 :=
  let n := p.lastNewPeers
  match acc with
  | (none, y, z) => (some p, y, z)
  | (some t, none, z) =>
      if n < t.lastNewPeers then (some p, some t, z) else (some t, some p, z)
  | (some s, some t, none) =>
      if n < s.lastNewPeers then (some p, some s, some t)
      else if n < t.lastNewPeers then (some s, some p, some t)
      else (some s, some t, some p)
  | (some x, some y, some z) =>
      if n < x.lastNewPeers then (some x, some y, some z)
      else if n < y.lastNewPeers then (some p, some y, some z)
      else if n < z.lastNewPeers then (some y, some p, some z)
      else (some y, some z, some p)

/-- The fold of `select_peers_to_query` over the non-latest verified
peers. -/
def heaviest3 (rest : List ActivePeer) : Heaviest3 :=
  rest.foldl heaviestStep (none, none, none)

/-- The populated slots of the accumulator, in slot order. -/
def slotList (acc : Heaviest3) : List ActivePeer :=
  acc.1.toList ++ acc.2.1.toList ++ acc.2.2.toList

/-- The slot addressed by the random index `r` (`match r { 0 => .., 1 => ..,
2 => .., _ => unreachable!() }` in `query.rs`); the unreachable arm is
modelled as `none`. -/
def slotGet (acc : Heaviest3) (r : Nat) : Option ActivePeer :=
  match r with
  | 0 => acc.1
  | 1 => acc.2.1
  | 2 => acc.2.2
  | _ => none

/-- `select_peers_to_query` from `query.rs`.  The random draw
`thread_rng().gen_range(0..len)` is modelled by the parameter `r`, which the
RNG guarantees to satisfy `r < min rest.length 3`.  A `none` result models a
panic (an `unwrap` failure or the `unreachable` arm); the empty-list match
arm is dead because the length test guards it. -/
def select_peers_to_query (active : List ActivePeer) (r : Nat) :
    Option (List Nat) :=
  let verif_peers := get_verified_peers active
  if verif_peers.length < 3 then
    some (verif_peers.map (fun ap => ap.peerId))
  else
    match verif_peers with
    | [] => none
    | latest :: rest =>
        (slotGet (heaviest3 rest) r).map
          (fun heaviest => [latest.peerId, heaviest.peerId])

/-! ## Message ingestion pipeline: data model

The pipeline body of `ProcessorWorker::start` (`processor.rs` lines
83–222).  External collaborators enter as parameters: `unpack` models
`Message::unpack` (the decoder of the `bee-message` crate), `digest` models
the Blake2b-256 hash, and the tracked-peer list models
`peer_manager.peers`.  The `f64` proof-of-work scores are embedded as
rationals, which preserves the ordering the pipeline compares
(NaN behaviour is not exercised by any claim). -/

/-- Payload kinds distinguished by the pipeline's final `match`. -/
inductive PayloadKind where
  | milestone
  | indexation
  | other
  deriving DecidableEq, Repr

/-- A decoded message: the fields of `bee_message::Message` that the
pipeline reads (`network_id`, `parent1`, `parent2`, `payload`). -/
structure MessageM where
  networkId : Nat
  parent1 : Nat
  parent2 : Nat
  payload : Option PayloadKind
  deriving DecidableEq, Repr

/-- One `ProcessorWorkerEvent`: proof-of-work score, optional originating
peer, the raw packet bytes, and whether a response channel is attached. -/
structure Event where
  powScore : ℚ
  source : Option Nat
  bytes : List Nat
  notifier : Bool
  deriving DecidableEq, Repr

/-- The configuration pair `(ProtocolConfig, u64)` as the pipeline uses it:
`config.0.minimum_pow_score` and `config.1` (the network id). -/
structure Config where
  minimumPowScore : ℚ
  networkId : Nat
  deriving DecidableEq, Repr

/-- Modelled from the spec: the `RequestedMessages` map type lives outside
`src/`; spec §3 defines it as a map MessageId → (requestIndex, requestedAt),
embedded as an association list with unique keys. -/
abbrev RequestedMap := List (Nat × Nat × Nat)

/-- The state the pipeline step reads and writes: the set of MessageIds in
the tangle store (spec §6 insert-if-absent contract) and the
requested-messages map. -/
structure PState where
  store : List Nat
  requested : RequestedMap
  deriving DecidableEq, Repr

/-- The reject reasons of pipeline stages 1–3 (spec §7 taxonomy). -/
inductive RejectReason where
  | malformedMessage
  | wrongNetwork
  | insufficientProof
  deriving DecidableEq, Repr

/-- One observable action of the pipeline body, in program order:
counter increments, notifier replies, the hash computation, the store
insert call, and the sends to downstream workers. -/
inductive Effect where
  | invalidInc
  | notifyErr (reason : RejectReason)
  | computeId
  | storeInsert (id : Nat)
  | notifyOk (id : Nat)
  | sendPropagator (id : Nat)
  | newInc
  | requestParent (id : Nat) (index : Nat)
  | broadcast (source : Option Nat)
  | sendMilestoneValidator (id : Nat)
  | knownInc
  | peerKnownInc (peer : Nat)
  deriving DecidableEq, Repr

/-- The notifier error reply, present only when a response channel is. -/
def notifyErrList (hasNotifier : Bool) (reason : RejectReason) : List Effect :=
  if hasNotifier then [Effect.notifyErr reason] else []

/-- The notifier success reply, present only when a response channel is. -/
def notifyOkList (hasNotifier : Bool) (id : Nat) : List Effect :=
  if hasNotifier then [Effect.notifyOk id] else []

/-- The per-peer known-message counter increment: only when the event has an
originating peer and `peer_manager.peers.get` finds it. -/
def peerKnownList (tracked : List Nat) (source : Option Nat) : List Effect :=
  match source with
  | some pid => if pid ∈ tracked then [Effect.peerKnownInc pid] else []
  | none => []

/-- Removal of a key from the requested-messages map
(`requested_messages.remove(&message_id)`). -/
def eraseKey (k : Nat) (m : RequestedMap) : RequestedMap :=
  m.filter (fun kv => kv.1 ≠ k)

/-- The parent-request effects on the requested path: `parent1` always,
`parent2` only when it differs from `parent1`
(`processor.rs` lines 165–182). -/
def parentRequests (m : MessageM) (index : Nat) : List Effect :=
  Effect.requestParent m.parent1 index ::
    (if m.parent1 ≠ m.parent2 then [Effect.requestParent m.parent2 index]
     else [])

/-- The milestone-validator send, only for milestone payloads
(`processor.rs` lines 195–210). -/
def milestoneEffects (m : MessageM) (id : Nat) : List Effect :=
  match m.payload with
  | some PayloadKind.milestone => [Effect.sendMilestoneValidator id]
  | _ => []

/-- One iteration of the `ProcessorWorker::start` event loop
(`processor.rs` lines 83–222), translated statement by statement.  Returns
the successor state and the ordered effect trace of the iteration.
`unpack` and `digest` are the external decode and hash functions; `tracked`
is the set of peers the peer manager knows. -/
def processEvent (cfg : Config) (unpack : List Nat → Option MessageM)
    (digest : List Nat → Nat) (tracked : List Nat) (s : PState) (e : Event) :
    PState × List Effect :=
  match unpack e.bytes with
  | none =>
      (s, Effect.invalidInc :: notifyErrList e.notifier RejectReason.malformedMessage)
  | some message =>
      if message.networkId ≠ cfg.networkId then
        (s, Effect.invalidInc :: notifyErrList e.notifier RejectReason.wrongNetwork)
      else
        -- the hash is computed here, before the proof-of-work test
        -- (`processor.rs` lines 117–122)
        let message_id := digest e.bytes
        let tail :=
          if e.powScore < cfg.minimumPowScore then
            (s, Effect.invalidInc ::
              notifyErrList e.notifier RejectReason.insufficientProof)
          else
            if message_id ∈ s.store then
              -- `tangle.insert` returned `None`: known message
              (s, Effect.storeInsert message_id :: Effect.knownInc ::
                (peerKnownList tracked e.source ++
                  notifyOkList e.notifier message_id))
            else
              -- `tangle.insert` returned `Some`: new message
              (⟨message_id :: s.store, eraseKey message_id s.requested⟩,
                Effect.storeInsert message_id ::
                  (notifyOkList e.notifier message_id ++
                    (Effect.sendPropagator message_id :: Effect.newInc ::
                      ((match s.requested.lookup message_id with
                        | some (index, _) => parentRequests message index
                        | none => [Effect.broadcast e.source]) ++
                        milestoneEffects message message_id))))
        (tail.1, Effect.computeId :: tail.2)

/-- Recognizer for parent-request effects, used to count them. -/
def isParentRequest : Effect → Bool := fun x =>
  match x with
  | Effect.requestParent _ _ => true
  | _ => false

/-- The invariant of the single-pass top-3 fold of `select_peers_to_query`,
relating the processed prefix of the input to the accumulator. -/
structure FoldInv (processed : List ActivePeer) (acc : Heaviest3) : Prop where
  shapeY : acc.2.1.isSome = true → acc.1.isSome = true
  shapeZ : acc.2.2.isSome = true → acc.2.1.isSome = true
  lenEq : (slotList acc).length = min processed.length 3
  sorted : (slotList acc).Chain' (fun a b => a.lastNewPeers ≤ b.lastNewPeers)
  decomp : ∃ d, processed.Perm (slotList acc ++ d) ∧
    ∀ q ∈ d, ∀ sl ∈ slotList acc, q.lastNewPeers ≤ sl.lastNewPeers

/-! ## Sanity checks on concrete inputs -/

example :
    select_peers_to_query
      [⟨0, 1, 9, 9⟩, ⟨1, 1, 8, 8⟩, ⟨2, 1, 7, 7⟩, ⟨3, 1, 6, 6⟩] 2 =
      some [0, 1] := by decide

example :
    select_peers_to_query [⟨0, 1, 9, 9⟩, ⟨1, 1, 8, 8⟩] 0 = some [0, 1] := by
  decide

example : reverify_fn [⟨5, 1, 0, 3⟩, ⟨6, 0, 0, 1⟩] =
    some (ReverifyOutcome.verifyPeer 6) := by decide

example : reverify_fn [] = none := by decide

example :
    processEvent ⟨1, 7⟩ (fun _ => some ⟨7, 21, 22, none⟩) (fun _ => 5) []
        ⟨[], []⟩ ⟨2, none, [0], false⟩ =
      (⟨[5], []⟩,
        [Effect.computeId, Effect.storeInsert 5, Effect.sendPropagator 5,
          Effect.newInc, Effect.broadcast none]) := by decide

example :
    processEvent ⟨1, 7⟩ (fun _ => some ⟨7, 21, 22, none⟩) (fun _ => 5) []
        ⟨[], [(5, 3, 0)]⟩ ⟨2, none, [0], false⟩ =
      (⟨[5], []⟩,
        [Effect.computeId, Effect.storeInsert 5, Effect.sendPropagator 5,
          Effect.newInc, Effect.requestParent 21 3,
          Effect.requestParent 22 3]) := by decide

example :
    processEvent ⟨1, 7⟩ (fun _ => some ⟨7, 21, 22, none⟩) (fun _ => 5) [9]
        ⟨[5], []⟩ ⟨2, some 9, [0], true⟩ =
      (⟨[5], []⟩,
        [Effect.computeId, Effect.storeInsert 5, Effect.knownInc,
          Effect.peerKnownInc 9, Effect.notifyOk 5]) := by decide

example :
    processEvent ⟨1, 7⟩ (fun _ => some ⟨7, 21, 22, none⟩) (fun _ => 5) []
        ⟨[], []⟩ ⟨0, none, [0], true⟩ =
      (⟨[], []⟩,
        [Effect.computeId, Effect.invalidInc,
          Effect.notifyErr RejectReason.insufficientProof]) := by decide

@[simp]
theorem mem_notifyOkList {x : Effect} {b : Bool} {id : Nat} :
    x ∈ notifyOkList b id ↔ b = true ∧ x = Effect.notifyOk id := by
  cases b <;> simp [notifyOkList]

@[simp]
theorem mem_notifyErrList {x : Effect} {b : Bool} {r : RejectReason} :
    x ∈ notifyErrList b r ↔ b = true ∧ x = Effect.notifyErr r := by
  cases b <;> simp [notifyErrList]

@[simp]
theorem mem_peerKnownList {x : Effect} {t : List Nat} {src : Option Nat} :
    x ∈ peerKnownList t src ↔
      ∃ p, src = some p ∧ p ∈ t ∧ x = Effect.peerKnownInc p := by
  cases src with
  | none => simp [peerKnownList]
  | some pid =>
      by_cases hp : pid ∈ t <;> simp [peerKnownList, hp]

@[simp]
theorem mem_parentRequests {x : Effect} {m : MessageM} {i : Nat} :
    x ∈ parentRequests m i ↔
      x = Effect.requestParent m.parent1 i ∨
        m.parent1 ≠ m.parent2 ∧ x = Effect.requestParent m.parent2 i := by
  by_cases hp : m.parent1 = m.parent2 <;> simp [parentRequests, hp]

@[simp]
theorem mem_milestoneEffects {x : Effect} {m : MessageM} {id : Nat} :
    x ∈ milestoneEffects m id ↔
      m.payload = some PayloadKind.milestone ∧
        x = Effect.sendMilestoneValidator id := by
  match hp : m.payload with
  | none => simp [milestoneEffects, hp]
  | some PayloadKind.milestone => simp [milestoneEffects, hp]
  | some PayloadKind.indexation => simp [milestoneEffects, hp]
  | some PayloadKind.other => simp [milestoneEffects, hp]

@[simp]
theorem countP_isParentRequest_notifyOkList {b : Bool} {id : Nat} :
    (notifyOkList b id).countP isParentRequest = 0 := by
  cases b <;> simp [notifyOkList, isParentRequest]

@[simp]
theorem countP_isParentRequest_milestoneEffects {m : MessageM} {id : Nat} :
    (milestoneEffects m id).countP isParentRequest = 0 := by
  match hp : m.payload with
  | none => simp [milestoneEffects, hp]
  | some PayloadKind.milestone => simp [milestoneEffects, hp, isParentRequest]
  | some PayloadKind.indexation => simp [milestoneEffects, hp]
  | some PayloadKind.other => simp [milestoneEffects, hp]

theorem countP_isParentRequest_parentRequests {m : MessageM} {i : Nat} :
    (parentRequests m i).countP isParentRequest =
      if m.parent1 = m.parent2 then 1 else 2 := by
  by_cases hp : m.parent1 = m.parent2 <;>
    simp [parentRequests, hp, isParentRequest, List.countP_cons]

/-! ## Pipeline: branch lemmas -/

theorem processEvent_decode_fail (cfg : Config)
    (unpack : List Nat → Option MessageM) (digest : List Nat → Nat)
    (tracked : List Nat) (s : PState) (e : Event)
    (hm : unpack e.bytes = none) :
    processEvent cfg unpack digest tracked s e =
      (s, Effect.invalidInc ::
        notifyErrList e.notifier RejectReason.malformedMessage) := by
  unfold processEvent
  rw [hm]

theorem processEvent_bad_network (cfg : Config)
    (unpack : List Nat → Option MessageM) (digest : List Nat → Nat)
    (tracked : List Nat) (s : PState) (e : Event) (m : MessageM)
    (hm : unpack e.bytes = some m) (hnet : m.networkId ≠ cfg.networkId) :
    processEvent cfg unpack digest tracked s e =
      (s, Effect.invalidInc ::
        notifyErrList e.notifier RejectReason.wrongNetwork) := by
  unfold processEvent
  rw [hm]
  simp only [if_pos hnet]

theorem processEvent_pow_fail (cfg : Config)
    (unpack : List Nat → Option MessageM) (digest : List Nat → Nat)
    (tracked : List Nat) (s : PState) (e : Event) (m : MessageM)
    (hm : unpack e.bytes = some m) (hnet : m.networkId = cfg.networkId)
    (hpow : e.powScore < cfg.minimumPowScore) :
    processEvent cfg unpack digest tracked s e =
      (s, Effect.computeId :: Effect.invalidInc ::
        notifyErrList e.notifier RejectReason.insufficientProof) := by
  unfold processEvent
  rw [hm]
  simp only [hnet, ne_eq, not_true_eq_false, if_false, if_pos hpow]

theorem processEvent_known (cfg : Config)
    (unpack : List Nat → Option MessageM) (digest : List Nat → Nat)
    (tracked : List Nat) (s : PState) (e : Event) (m : MessageM)
    (hm : unpack e.bytes = some m) (hnet : m.networkId = cfg.networkId)
    (hpow : ¬e.powScore < cfg.minimumPowScore)
    (hmem : digest e.bytes ∈ s.store) :
    processEvent cfg unpack digest tracked s e =
      (s, Effect.computeId :: Effect.storeInsert (digest e.bytes) ::
        Effect.knownInc ::
          (peerKnownList tracked e.source ++
            notifyOkList e.notifier (digest e.bytes))) := by
  unfold processEvent
  rw [hm]
  simp only [hnet, ne_eq, not_true_eq_false, if_false, if_neg hpow,
    if_pos hmem]

theorem processEvent_new (cfg : Config)
    (unpack : List Nat → Option MessageM) (digest : List Nat → Nat)
    (tracked : List Nat) (s : PState) (e : Event) (m : MessageM)
    (hm : unpack e.bytes = some m) (hnet : m.networkId = cfg.networkId)
    (hpow : ¬e.powScore < cfg.minimumPowScore)
    (hmem : digest e.bytes ∉ s.store) :
    processEvent cfg unpack digest tracked s e =
      (⟨digest e.bytes :: s.store, eraseKey (digest e.bytes) s.requested⟩,
        Effect.computeId :: Effect.storeInsert (digest e.bytes) ::
          (notifyOkList e.notifier (digest e.bytes) ++
            (Effect.sendPropagator (digest e.bytes) :: Effect.newInc ::
              ((match s.requested.lookup (digest e.bytes) with
                | some (index, _) => parentRequests m index
                | none => [Effect.broadcast e.source]) ++
                milestoneEffects m (digest e.bytes))))) := by
  unfold processEvent
  rw [hm]
  simp only [hnet, ne_eq, not_true_eq_false, if_false, if_neg hpow,
    if_neg hmem]

/-! ## Claims about the message ingestion pipeline -/

/-- C4: a message that decodes successfully but declares a network id
different from the configured one is rejected with `WrongNetwork`: the
invalid-message counter is incremented, a present notifier receives a
descriptive error, the store's insert is never called, and the state is
unchanged — with no hypothesis on the proof-of-work score. -/
theorem claim_C4_wrong_network (cfg : Config)
    (unpack : List Nat → Option MessageM) (digest : List Nat → Nat)
    (tracked : List Nat) (s : PState) (e : Event) (m : MessageM)
    (hm : unpack e.bytes = some m) (hnet : m.networkId ≠ cfg.networkId) :
    processEvent cfg unpack digest tracked s e =
      (s, Effect.invalidInc ::
        notifyErrList e.notifier RejectReason.wrongNetwork) ∧
    Effect.invalidInc ∈ (processEvent cfg unpack digest tracked s e).2 ∧
    (e.notifier = true →
      Effect.notifyErr RejectReason.wrongNetwork ∈
        (processEvent cfg unpack digest tracked s e).2) ∧
    (∀ i, Effect.storeInsert i ∉
      (processEvent cfg unpack digest tracked s e).2) := by
  have h := processEvent_bad_network cfg unpack digest tracked s e m hm hnet
  refine ⟨h, ?_, ?_, ?_⟩
  · rw [h]; simp
  · intro hn; rw [h]; simp [hn]
  · intro i; rw [h]; simp

/-- Witness for C4 at a concrete input (network id 8 against configured 7,
proof-of-work score far above the minimum). -/
theorem claim_C4_wrong_network_witness :
    processEvent ⟨1, 7⟩ (fun _ => some ⟨8, 0, 0, none⟩) (fun _ => 5) []
        ⟨[], []⟩ ⟨100, none, [], true⟩ =
      (⟨[], []⟩, Effect.invalidInc ::
        notifyErrList true RejectReason.wrongNetwork) ∧
    Effect.invalidInc ∈
      (processEvent ⟨1, 7⟩ (fun _ => some ⟨8, 0, 0, none⟩) (fun _ => 5) []
        ⟨[], []⟩ ⟨100, none, [], true⟩).2 ∧
    (true = true →
      Effect.notifyErr RejectReason.wrongNetwork ∈
        (processEvent ⟨1, 7⟩ (fun _ => some ⟨8, 0, 0, none⟩) (fun _ => 5) []
          ⟨[], []⟩ ⟨100, none, [], true⟩).2) ∧
    (∀ i, Effect.storeInsert i ∉
      (processEvent ⟨1, 7⟩ (fun _ => some ⟨8, 0, 0, none⟩) (fun _ => 5) []
        ⟨[], []⟩ ⟨100, none, [], true⟩).2) :=
  claim_C4_wrong_network ⟨1, 7⟩ (fun _ => some ⟨8, 0, 0, none⟩) (fun _ => 5)
    [] ⟨[], []⟩ ⟨100, none, [], true⟩ ⟨8, 0, 0, none⟩ rfl (by decide)

/-- C1 counterexample: a message that decodes, matches the network id, but
has proof-of-work score 0 below the configured minimum 1.  The effect trace
is `[computeId, invalidInc, notifyErr insufficientProof]`: the MessageId
digest IS computed, and computed before the `InsufficientProof` rejection,
refuting the claim that the rejection precedes identity computation and
that the digest is only computed once all three checks have passed. -/
theorem claim_C1_counterexample :
    (processEvent ⟨1, 7⟩ (fun _ => some ⟨7, 21, 22, none⟩) (fun _ => 5) []
        ⟨[], []⟩ ⟨0, none, [], true⟩).2 =
      [Effect.computeId, Effect.invalidInc,
        Effect.notifyErr RejectReason.insufficientProof] ∧
    Effect.computeId ∈
      (processEvent ⟨1, 7⟩ (fun _ => some ⟨7, 21, 22, none⟩) (fun _ => 5) []
        ⟨[], []⟩ ⟨0, none, [], true⟩).2 ∧
    (Event.powScore ⟨0, none, [], true⟩ <
      Config.minimumPowScore ⟨1, 7⟩) := by
  refine ⟨by decide, by decide, by norm_num⟩

/-- C1 amended: for every message that decodes and passes the
network-identity check, the MessageId digest is computed exactly once, as
the first action after those two checks and in particular BEFORE the
proof-of-work check; a message with insufficient proof score is rejected
with `InsufficientProof` after the identity computation, with no store
interaction and no state change. -/
theorem claim_C1_digest_order (cfg : Config)
    (unpack : List Nat → Option MessageM) (digest : List Nat → Nat)
    (tracked : List Nat) (s : PState) (e : Event) (m : MessageM)
    (hm : unpack e.bytes = some m) (hnet : m.networkId = cfg.networkId) :
    ∃ tl, (processEvent cfg unpack digest tracked s e).2 =
        Effect.computeId :: tl ∧
      Effect.computeId ∉ tl ∧
      (e.powScore < cfg.minimumPowScore →
        processEvent cfg unpack digest tracked s e =
          (s, Effect.computeId :: Effect.invalidInc ::
            notifyErrList e.notifier RejectReason.insufficientProof) ∧
        ∀ i, Effect.storeInsert i ∉
          (processEvent cfg unpack digest tracked s e).2) := by
  by_cases hpow : e.powScore < cfg.minimumPowScore
  · have h := processEvent_pow_fail cfg unpack digest tracked s e m hm hnet hpow
    refine ⟨_, by rw [h], ?_, fun _ => ⟨h, ?_⟩⟩
    · simp
    · intro i; rw [h]; simp
  · by_cases hmem : digest e.bytes ∈ s.store
    · have h := processEvent_known cfg unpack digest tracked s e m hm hnet hpow hmem
      refine ⟨_, by rw [h], ?_, fun hp => absurd hp hpow⟩
      simp
    · have h := processEvent_new cfg unpack digest tracked s e m hm hnet hpow hmem
      refine ⟨_, by rw [h], ?_, fun hp => absurd hp hpow⟩
      match hl : s.requested.lookup (digest e.bytes) with
      | some (index, t0) => simp
      | none => simp

/-- Witness for the amended C1 at a concrete pow-failing input. -/
theorem claim_C1_digest_order_witness :
    ∃ tl, (processEvent ⟨1, 7⟩ (fun _ => some ⟨7, 21, 22, none⟩)
        (fun _ => 5) [] ⟨[], []⟩ ⟨0, none, [], true⟩).2 =
        Effect.computeId :: tl ∧
      Effect.computeId ∉ tl ∧
      (Event.powScore ⟨0, none, [], true⟩ <
          Config.minimumPowScore ⟨1, 7⟩ →
        processEvent ⟨1, 7⟩ (fun _ => some ⟨7, 21, 22, none⟩) (fun _ => 5) []
            ⟨[], []⟩ ⟨0, none, [], true⟩ =
          (⟨[], []⟩, Effect.computeId :: Effect.invalidInc ::
            notifyErrList true RejectReason.insufficientProof) ∧
        ∀ i, Effect.storeInsert i ∉
          (processEvent ⟨1, 7⟩ (fun _ => some ⟨7, 21, 22, none⟩)
            (fun _ => 5) [] ⟨[], []⟩ ⟨0, none, [], true⟩).2) :=
  claim_C1_digest_order ⟨1, 7⟩ (fun _ => some ⟨7, 21, 22, none⟩)
    (fun _ => 5) [] ⟨[], []⟩ ⟨0, none, [], true⟩ ⟨7, 21, 22, none⟩ rfl rfl

/-- C5: the requested-messages map is removed from exactly on the
newly-inserted (`New`) path: on every rejected event (decode failure,
wrong network, insufficient proof) and on every duplicate (`Known`) event
the whole state — and so the map — is unchanged, while on the `New` path
the new map is exactly the old one with the MessageId's entry removed. -/
theorem claim_C5_requested_removal (cfg : Config)
    (unpack : List Nat → Option MessageM) (digest : List Nat → Nat)
    (tracked : List Nat) (s : PState) (e : Event) :
    (unpack e.bytes = none →
      (processEvent cfg unpack digest tracked s e).1 = s) ∧
    (∀ m, unpack e.bytes = some m → m.networkId ≠ cfg.networkId →
      (processEvent cfg unpack digest tracked s e).1 = s) ∧
    (∀ m, unpack e.bytes = some m → m.networkId = cfg.networkId →
      e.powScore < cfg.minimumPowScore →
      (processEvent cfg unpack digest tracked s e).1 = s) ∧
    (∀ m, unpack e.bytes = some m → m.networkId = cfg.networkId →
      ¬e.powScore < cfg.minimumPowScore →
      (digest e.bytes ∈ s.store →
        (processEvent cfg unpack digest tracked s e).1 = s) ∧
      (digest e.bytes ∉ s.store →
        (processEvent cfg unpack digest tracked s e).1.requested =
          eraseKey (digest e.bytes) s.requested ∧
        (processEvent cfg unpack digest tracked s e).1.store =
          digest e.bytes :: s.store)) := by
  refine ⟨?_, ?_, ?_, ?_⟩
  · intro hm
    rw [processEvent_decode_fail cfg unpack digest tracked s e hm]
  · intro m hm hnet
    rw [processEvent_bad_network cfg unpack digest tracked s e m hm hnet]
  · intro m hm hnet hpow
    rw [processEvent_pow_fail cfg unpack digest tracked s e m hm hnet hpow]
  · intro m hm hnet hpow
    refine ⟨?_, ?_⟩
    · intro hmem
      rw [processEvent_known cfg unpack digest tracked s e m hm hnet hpow hmem]
    · intro hmem
      rw [processEvent_new cfg unpack digest tracked s e m hm hnet hpow hmem]
      exact ⟨rfl, rfl⟩

/-- Witness for C5 at a concrete input: a requested, pow-passing, new
message whose map entry is removed by the event. -/
theorem claim_C5_requested_removal_witness :
    (∀ m, (fun _ : List Nat => some (⟨7, 21, 22, none⟩ : MessageM)) [] =
        some m →
      MessageM.networkId m = Config.networkId ⟨1, 7⟩ →
      ¬Event.powScore ⟨2, none, [], false⟩ < Config.minimumPowScore ⟨1, 7⟩ →
      ((fun _ : List Nat => 5) [] ∈ PState.store ⟨[], [(5, 3, 0)]⟩ →
        (processEvent ⟨1, 7⟩ (fun _ => some ⟨7, 21, 22, none⟩) (fun _ => 5)
          [] ⟨[], [(5, 3, 0)]⟩ ⟨2, none, [], false⟩).1 = ⟨[], [(5, 3, 0)]⟩) ∧
      ((fun _ : List Nat => 5) [] ∉ PState.store ⟨[], [(5, 3, 0)]⟩ →
        (processEvent ⟨1, 7⟩ (fun _ => some ⟨7, 21, 22, none⟩) (fun _ => 5)
          [] ⟨[], [(5, 3, 0)]⟩ ⟨2, none, [], false⟩).1.requested =
            eraseKey 5 [(5, 3, 0)] ∧
        (processEvent ⟨1, 7⟩ (fun _ => some ⟨7, 21, 22, none⟩) (fun _ => 5)
          [] ⟨[], [(5, 3, 0)]⟩ ⟨2, none, [], false⟩).1.store = [5])) :=
  (claim_C5_requested_removal ⟨1, 7⟩ (fun _ => some ⟨7, 21, 22, none⟩)
    (fun _ => 5) [] ⟨[], [(5, 3, 0)]⟩ ⟨2, none, [], false⟩).2.2.2

/-- C6: on the `New` path of a message that was requested (its MessageId has
an entry in the map with requester index `index`): if the two parents are
equal exactly one parent request is issued, if they differ exactly two are
issued (one per parent), each tagged with `index`; no broadcast happens on
this path. -/
theorem claim_C6_parent_requests (cfg : Config)
    (unpack : List Nat → Option MessageM) (digest : List Nat → Nat)
    (tracked : List Nat) (s : PState) (e : Event) (m : MessageM)
    (index t0 : Nat)
    (hm : unpack e.bytes = some m) (hnet : m.networkId = cfg.networkId)
    (hpow : ¬e.powScore < cfg.minimumPowScore)
    (hmem : digest e.bytes ∉ s.store)
    (hlook : s.requested.lookup (digest e.bytes) = some (index, t0)) :
    (m.parent1 = m.parent2 →
      ((processEvent cfg unpack digest tracked s e).2).countP
        isParentRequest = 1) ∧
    (m.parent1 ≠ m.parent2 →
      ((processEvent cfg unpack digest tracked s e).2).countP
        isParentRequest = 2) ∧
    Effect.requestParent m.parent1 index ∈
      (processEvent cfg unpack digest tracked s e).2 ∧
    (m.parent1 ≠ m.parent2 →
      Effect.requestParent m.parent2 index ∈
        (processEvent cfg unpack digest tracked s e).2) ∧
    (∀ src, Effect.broadcast src ∉
      (processEvent cfg unpack digest tracked s e).2) := by
  have h := processEvent_new cfg unpack digest tracked s e m hm hnet hpow hmem
  rw [hlook] at h
  refine ⟨?_, ?_, ?_, ?_, ?_⟩
  · intro hp
    rw [h]
    simp [List.countP_cons, List.countP_append, isParentRequest,
      countP_isParentRequest_parentRequests, hp]
  · intro hp
    rw [h]
    simp [List.countP_cons, List.countP_append, isParentRequest,
      countP_isParentRequest_parentRequests, hp]
  · rw [h]; simp
  · intro hp; rw [h]; simp [hp]
  · intro src; rw [h]; simp

/-- Witness for C6 at a concrete input with equal parents: exactly one
parent request. -/
theorem claim_C6_parent_requests_witness :
    ((21 : Nat) = 21 →
      ((processEvent ⟨1, 7⟩ (fun _ => some ⟨7, 21, 21, none⟩) (fun _ => 5)
        [] ⟨[], [(5, 3, 0)]⟩ ⟨2, none, [], false⟩).2).countP
        isParentRequest = 1) ∧
    ((21 : Nat) ≠ 21 →
      ((processEvent ⟨1, 7⟩ (fun _ => some ⟨7, 21, 21, none⟩) (fun _ => 5)
        [] ⟨[], [(5, 3, 0)]⟩ ⟨2, none, [], false⟩).2).countP
        isParentRequest = 2) ∧
    Effect.requestParent 21 3 ∈
      (processEvent ⟨1, 7⟩ (fun _ => some ⟨7, 21, 21, none⟩) (fun _ => 5)
        [] ⟨[], [(5, 3, 0)]⟩ ⟨2, none, [], false⟩).2 ∧
    ((21 : Nat) ≠ 21 →
      Effect.requestParent 21 3 ∈
        (processEvent ⟨1, 7⟩ (fun _ => some ⟨7, 21, 21, none⟩) (fun _ => 5)
          [] ⟨[], [(5, 3, 0)]⟩ ⟨2, none, [], false⟩).2) ∧
    (∀ src, Effect.broadcast src ∉
      (processEvent ⟨1, 7⟩ (fun _ => some ⟨7, 21, 21, none⟩) (fun _ => 5)
        [] ⟨[], [(5, 3, 0)]⟩ ⟨2, none, [], false⟩).2) :=
  claim_C6_parent_requests ⟨1, 7⟩ (fun _ => some ⟨7, 21, 21, none⟩)
    (fun _ => 5) [] ⟨[], [(5, 3, 0)]⟩ ⟨2, none, [], false⟩ ⟨7, 21, 21, none⟩
    3 0 rfl rfl (by norm_num) (by decide) rfl

/-- C7: on the duplicate (`Known`) path the global known-message counter is
incremented, the originating peer's counter is incremented when the peer is
present and tracked, a present notifier receives a success reply with the
same MessageId and never an error, and no propagation, broadcast or parent
request is issued; the state is unchanged. -/
theorem claim_C7_known_path (cfg : Config)
    (unpack : List Nat → Option MessageM) (digest : List Nat → Nat)
    (tracked : List Nat) (s : PState) (e : Event) (m : MessageM)
    (hm : unpack e.bytes = some m) (hnet : m.networkId = cfg.networkId)
    (hpow : ¬e.powScore < cfg.minimumPowScore)
    (hmem : digest e.bytes ∈ s.store) :
    Effect.knownInc ∈ (processEvent cfg unpack digest tracked s e).2 ∧
    (∀ pid, e.source = some pid → pid ∈ tracked →
      Effect.peerKnownInc pid ∈
        (processEvent cfg unpack digest tracked s e).2) ∧
    (e.notifier = true →
      Effect.notifyOk (digest e.bytes) ∈
          (processEvent cfg unpack digest tracked s e).2 ∧
      ∀ r, Effect.notifyErr r ∉
        (processEvent cfg unpack digest tracked s e).2) ∧
    (∀ i, Effect.sendPropagator i ∉
      (processEvent cfg unpack digest tracked s e).2) ∧
    (∀ src, Effect.broadcast src ∉
      (processEvent cfg unpack digest tracked s e).2) ∧
    (∀ p i, Effect.requestParent p i ∉
      (processEvent cfg unpack digest tracked s e).2) ∧
    (processEvent cfg unpack digest tracked s e).1 = s := by
  have h := processEvent_known cfg unpack digest tracked s e m hm hnet hpow hmem
  refine ⟨?_, ?_, ?_, ?_, ?_, ?_, ?_⟩
  · rw [h]; simp
  · intro pid hpid hmemt; rw [h]; simp [hpid, hmemt]
  · intro hn
    constructor
    · rw [h]; simp [hn]
    · intro r; rw [h]; simp
  · intro i; rw [h]; simp
  · intro src; rw [h]; simp
  · intro p i; rw [h]; simp
  · rw [h]

/-- Witness for C7 at a concrete input: duplicate arrival from a tracked
peer with a notifier attached. -/
theorem claim_C7_known_path_witness :
    Effect.knownInc ∈
      (processEvent ⟨1, 7⟩ (fun _ => some ⟨7, 21, 22, none⟩) (fun _ => 5)
        [9] ⟨[5], []⟩ ⟨2, some 9, [], true⟩).2 ∧
    (∀ pid, Event.source ⟨2, some 9, [], true⟩ = some pid → pid ∈ [9] →
      Effect.peerKnownInc pid ∈
        (processEvent ⟨1, 7⟩ (fun _ => some ⟨7, 21, 22, none⟩) (fun _ => 5)
          [9] ⟨[5], []⟩ ⟨2, some 9, [], true⟩).2) ∧
    (true = true →
      Effect.notifyOk 5 ∈
          (processEvent ⟨1, 7⟩ (fun _ => some ⟨7, 21, 22, none⟩)
            (fun _ => 5) [9] ⟨[5], []⟩ ⟨2, some 9, [], true⟩).2 ∧
      ∀ r, Effect.notifyErr r ∉
        (processEvent ⟨1, 7⟩ (fun _ => some ⟨7, 21, 22, none⟩) (fun _ => 5)
          [9] ⟨[5], []⟩ ⟨2, some 9, [], true⟩).2) ∧
    (∀ i, Effect.sendPropagator i ∉
      (processEvent ⟨1, 7⟩ (fun _ => some ⟨7, 21, 22, none⟩) (fun _ => 5)
        [9] ⟨[5], []⟩ ⟨2, some 9, [], true⟩).2) ∧
    (∀ src, Effect.broadcast src ∉
      (processEvent ⟨1, 7⟩ (fun _ => some ⟨7, 21, 22, none⟩) (fun _ => 5)
        [9] ⟨[5], []⟩ ⟨2, some 9, [], true⟩).2) ∧
    (∀ p i, Effect.requestParent p i ∉
      (processEvent ⟨1, 7⟩ (fun _ => some ⟨7, 21, 22, none⟩) (fun _ => 5)
        [9] ⟨[5], []⟩ ⟨2, some 9, [], true⟩).2) ∧
    (processEvent ⟨1, 7⟩ (fun _ => some ⟨7, 21, 22, none⟩) (fun _ => 5)
      [9] ⟨[5], []⟩ ⟨2, some 9, [], true⟩).1 = ⟨[5], []⟩ :=
  claim_C7_known_path ⟨1, 7⟩ (fun _ => some ⟨7, 21, 22, none⟩) (fun _ => 5)
    [9] ⟨[5], []⟩ ⟨2, some 9, [], true⟩ ⟨7, 21, 22, none⟩ rfl rfl
    (by norm_num) (by decide)

/-! ## The top-3 fold invariant

The fold maintains: the populated slots are ordered by metric (minimum
first), fill left to right, and together with the dropped elements form a
permutation of the processed input, every dropped element weighing no more
than every slot. -/

theorem perm_swap_outer {α : Type} (a b : α) (m : List α) :
    (a :: (m ++ [b])).Perm (b :: (m ++ [a])) := by
  have h1 : (a :: (m ++ [b])).Perm (a :: b :: m) :=
    (List.perm_append_singleton b m).cons a
  have h2 : (a :: b :: m).Perm (b :: a :: m) := List.Perm.swap b a m
  have h3 : (b :: a :: m).Perm (b :: (m ++ [a])) :=
    ((List.perm_append_singleton a m).symm).cons b
  exact (h1.trans h2).trans h3

theorem foldInv_step (processed : List ActivePeer) (acc : Heaviest3)
    (p : ActivePeer) (h : FoldInv processed acc) :
    FoldInv (processed ++ [p]) (heaviestStep acc p) := by
  obtain ⟨x, y, z⟩ := acc
  cases x with
  | none =>
      cases y with
      | some b => exact absurd (h.shapeY (by simp)) (by simp)
      | none =>
          cases z with
          | some c => exact absurd (h.shapeZ (by simp)) (by simp)
          | none =>
              have hlen := h.lenEq
              simp [slotList] at hlen
              have hproc : processed = [] := by
                have hl0 : processed.length = 0 := by omega
                exact List.length_eq_zero.mp hl0
              subst hproc
              refine ⟨by simp [heaviestStep], by simp [heaviestStep],
                by simp [heaviestStep, slotList],
                by simp [heaviestStep, slotList], ⟨[], ?_, by simp⟩⟩
              simp [heaviestStep, slotList]
  | some a =>
      cases y with
      | none =>
          cases z with
          | some c => exact absurd (h.shapeZ (by simp)) (by simp)
          | none =>
              have hlen := h.lenEq
              simp [slotList] at hlen
              obtain ⟨d, hperm, hbound⟩ := h.decomp
              simp [slotList] at hperm
              have hlp := hperm.length_eq
              simp at hlp
              have hd : d = [] := by
                have hl0 : d.length = 0 := by omega
                exact List.length_eq_zero.mp hl0
              subst hd
              have hpa : processed = [a] :=
                List.perm_singleton.mp (by simpa using hperm)
              subst hpa
              by_cases h1 : p.lastNewPeers < a.lastNewPeers
              · refine ⟨by simp [heaviestStep, h1], by simp [heaviestStep, h1],
                  by simp [heaviestStep, h1, slotList],
                  ?_, ⟨[], ?_, by simp [heaviestStep, h1]⟩⟩
                · simp [heaviestStep, h1, slotList, List.chain'_cons]
                  exact le_of_lt h1
                · simp [heaviestStep, h1, slotList]
                  exact List.Perm.swap p a []
              · refine ⟨by simp [heaviestStep, h1], by simp [heaviestStep, h1],
                  by simp [heaviestStep, h1, slotList],
                  ?_, ⟨[], ?_, by simp [heaviestStep, h1]⟩⟩
                · simp [heaviestStep, h1, slotList, List.chain'_cons]
                  exact not_lt.mp h1
                · simp [heaviestStep, h1, slotList]
      | some b =>
          cases z with
          | none =>
              have hlen := h.lenEq
              simp [slotList] at hlen
              obtain ⟨d, hperm, hbound⟩ := h.decomp
              simp [slotList] at hperm
              have hab : a.lastNewPeers ≤ b.lastNewPeers := by
                have hs := h.sorted
                simp [slotList, List.chain'_cons] at hs
                exact hs
              have hlp := hperm.length_eq
              simp at hlp
              have hd : d = [] := by
                have hl0 : d.length = 0 := by omega
                exact List.length_eq_zero.mp hl0
              subst hd
              have hperm2 : processed.Perm [a, b] := by simpa using hperm
              by_cases h1 : p.lastNewPeers < a.lastNewPeers
              · refine ⟨by simp [heaviestStep, h1], by simp [heaviestStep, h1],
                  by simp [heaviestStep, h1, slotList]; omega, ?_,
                  ⟨[], ?_, by simp [heaviestStep, h1]⟩⟩
                · simp [heaviestStep, h1, slotList, List.chain'_cons]
                  exact ⟨le_of_lt h1, hab⟩
                · have s1 : (processed ++ [p]).Perm ([a, b] ++ [p]) :=
                    hperm2.append_right [p]
                  have s2 : ([a, b] ++ [p]).Perm (p :: [a, b]) :=
                    List.perm_append_singleton p [a, b]
                  simpa [heaviestStep, h1, slotList] using s1.trans s2
              · by_cases h2 : p.lastNewPeers < b.lastNewPeers
                · refine ⟨by simp [heaviestStep, h1, h2],
                    by simp [heaviestStep, h1, h2],
                    by simp [heaviestStep, h1, h2, slotList]; omega, ?_,
                    ⟨[], ?_, by simp [heaviestStep, h1, h2]⟩⟩
                  · simp [heaviestStep, h1, h2, slotList, List.chain'_cons]
                    exact ⟨not_lt.mp h1, le_of_lt h2⟩
                  · have s1 : (processed ++ [p]).Perm ([a, b] ++ [p]) :=
                      hperm2.append_right [p]
                    have s2 : (a :: b :: p :: []).Perm (a :: p :: b :: []) :=
                      (List.Perm.swap p b []).cons a
                    simpa [heaviestStep, h1, h2, slotList] using s1.trans s2
                · refine ⟨by simp [heaviestStep, h1, h2],
                    by simp [heaviestStep, h1, h2],
                    by simp [heaviestStep, h1, h2, slotList]; omega, ?_,
                    ⟨[], ?_, by simp [heaviestStep, h1, h2]⟩⟩
                  · simp [heaviestStep, h1, h2, slotList, List.chain'_cons]
                    exact ⟨hab, not_lt.mp h2⟩
                  · have s1 : (processed ++ [p]).Perm ([a, b] ++ [p]) :=
                      hperm2.append_right [p]
                    simpa [heaviestStep, h1, h2, slotList] using s1
          | some c =>
              have hlen := h.lenEq
              simp [slotList] at hlen
              obtain ⟨d, hperm, hbound⟩ := h.decomp
              simp [slotList] at hperm
              simp [slotList] at hbound
              have hs := h.sorted
              simp [slotList, List.chain'_cons] at hs
              obtain ⟨hab, hbc⟩ := hs
              by_cases h1 : p.lastNewPeers < a.lastNewPeers
              · -- no-op: p is dropped
                refine ⟨by simp [heaviestStep, h1], by simp [heaviestStep, h1],
                  ?_, by simpa [heaviestStep, h1] using h.sorted,
                  ⟨d ++ [p], ?_, ?_⟩⟩
                · simp [heaviestStep, h1, slotList] at hlen ⊢
                  omega
                · have s1 : (processed ++ [p]).Perm ((a :: b :: c :: d) ++ [p]) :=
                    hperm.append_right [p]
                  simpa [heaviestStep, h1, slotList] using s1
                · intro q hq sl hsl
                  simp [heaviestStep, h1, slotList] at hsl
                  rcases List.mem_append.mp hq with hq | hq
                  · have := hbound q hq
                    rcases hsl with rfl | rfl | rfl
                    · exact this.1
                    · exact this.2.1
                    · exact this.2.2
                  · have hqp : q = p := by simpa using hq
                    subst hqp
                    rcases hsl with rfl | rfl | rfl
                    · exact le_of_lt h1
                    · exact le_of_lt (lt_of_lt_of_le h1 hab)
                    · exact le_of_lt (lt_of_lt_of_le h1 (hab.trans hbc))
              · have hap : a.lastNewPeers ≤ p.lastNewPeers := not_lt.mp h1
                have core : (processed ++ [p]).Perm
                    (p :: b :: c :: (d ++ [a])) := by
                  have s1 : (processed ++ [p]).Perm
                      (a :: ((b :: c :: d) ++ [p])) := by
                    simpa using hperm.append_right [p]
                  have s2 := perm_swap_outer a p (b :: c :: d)
                  simpa using s1.trans s2
                by_cases h2 : p.lastNewPeers < b.lastNewPeers
                · -- evict the minimum, p becomes the new first slot
                  refine ⟨by simp [heaviestStep, h1, h2],
                    by simp [heaviestStep, h1, h2], ?_, ?_, ⟨d ++ [a], ?_, ?_⟩⟩
                  · simp [heaviestStep, h1, h2, slotList] at hlen ⊢
                    omega
                  · simp [heaviestStep, h1, h2, slotList, List.chain'_cons]
                    exact ⟨le_of_lt h2, hbc⟩
                  · simpa [heaviestStep, h1, h2, slotList] using core
                  · intro q hq sl hsl
                    simp [heaviestStep, h1, h2, slotList] at hsl
                    rcases List.mem_append.mp hq with hq | hq
                    · have hb := hbound q hq
                      rcases hsl with rfl | rfl | rfl
                      · exact hb.1.trans hap
                      · exact hb.2.1
                      · exact hb.2.2
                    · have hqa : q = a := by simpa using hq
                      subst hqa
                      rcases hsl with rfl | rfl | rfl
                      · exact hap
                      · exact hab
                      · exact hab.trans hbc
                · have hbp : b.lastNewPeers ≤ p.lastNewPeers := not_lt.mp h2
                  by_cases h3 : p.lastNewPeers < c.lastNewPeers
                  · -- p becomes the middle slot
                    refine ⟨by simp [heaviestStep, h1, h2, h3],
                      by simp [heaviestStep, h1, h2, h3], ?_, ?_,
                      ⟨d ++ [a], ?_, ?_⟩⟩
                    · simp [heaviestStep, h1, h2, h3, slotList] at hlen ⊢
                      omega
                    · simp [heaviestStep, h1, h2, h3, slotList,
                        List.chain'_cons]
                      exact ⟨hbp, le_of_lt h3⟩
                    · have s3 : (p :: b :: c :: (d ++ [a])).Perm
                          (b :: p :: c :: (d ++ [a])) :=
                        List.Perm.swap b p (c :: (d ++ [a]))
                      simpa [heaviestStep, h1, h2, h3, slotList] using
                        core.trans s3
                    · intro q hq sl hsl
                      simp [heaviestStep, h1, h2, h3, slotList] at hsl
                      rcases List.mem_append.mp hq with hq | hq
                      · have hb := hbound q hq
                        rcases hsl with rfl | rfl | rfl
                        · exact hb.2.1
                        · exact hb.1.trans hap
                        · exact hb.2.2
                      · have hqa : q = a := by simpa using hq
                        subst hqa
                        rcases hsl with rfl | rfl | rfl
                        · exact hab
                        · exact hap
                        · exact hab.trans hbc
                  · -- p becomes the last slot
                    have hcp : c.lastNewPeers ≤ p.lastNewPeers := not_lt.mp h3
                    refine ⟨by simp [heaviestStep, h1, h2, h3],
                      by simp [heaviestStep, h1, h2, h3], ?_, ?_,
                      ⟨d ++ [a], ?_, ?_⟩⟩
                    · simp [heaviestStep, h1, h2, h3, slotList] at hlen ⊢
                      omega
                    · simp [heaviestStep, h1, h2, h3, slotList,
                        List.chain'_cons]
                      exact ⟨hbc, hcp⟩
                    · have s3 : (p :: b :: c :: (d ++ [a])).Perm
                          (b :: p :: c :: (d ++ [a])) :=
                        List.Perm.swap b p (c :: (d ++ [a]))
                      have s4 : (b :: p :: c :: (d ++ [a])).Perm
                          (b :: c :: p :: (d ++ [a])) :=
                        (List.Perm.swap c p (d ++ [a])).cons b
                      simpa [heaviestStep, h1, h2, h3, slotList] using
                        (core.trans s3).trans s4
                    · intro q hq sl hsl
                      simp [heaviestStep, h1, h2, h3, slotList] at hsl
                      rcases List.mem_append.mp hq with hq | hq
                      · have hb := hbound q hq
                        rcases hsl with rfl | rfl | rfl
                        · exact hb.2.1
                        · exact hb.2.2
                        · exact hb.1.trans hap
                      · have hqa : q = a := by simpa using hq
                        subst hqa
                        rcases hsl with rfl | rfl | rfl
                        · exact hab
                        · exact hab.trans hbc
                        · exact hap

theorem foldInv_foldl (l : List ActivePeer) :
    ∀ (processed : List ActivePeer) (acc : Heaviest3),
      FoldInv processed acc →
      FoldInv (processed ++ l) (l.foldl heaviestStep acc) := by
  induction l with
  | nil => intro processed acc h; simpa using h
  | cons p t ih =>
      intro processed acc h
      have h1 := foldInv_step processed acc p h
      have h2 := ih (processed ++ [p]) (heaviestStep acc p) h1
      simpa [List.append_assoc] using h2

theorem foldInv_heaviest3 (l : List ActivePeer) : FoldInv l (heaviest3 l) := by
  have h0 : FoldInv [] (none, none, none) :=
    ⟨by simp, by simp, by simp [slotList], by simp [slotList],
      ⟨[], by simp [slotList], by simp⟩⟩
  simpa [heaviest3] using foldInv_foldl l [] (none, none, none) h0

theorem slotGet_mem (acc : Heaviest3) (r : Nat) (c : ActivePeer)
    (hc : slotGet acc r = some c) : c ∈ slotList acc := by
  obtain ⟨x, y, z⟩ := acc
  match r with
  | 0 => simp [slotGet] at hc; simp [slotList, hc]
  | 1 => simp [slotGet] at hc; simp [slotList, hc]
  | 2 => simp [slotGet] at hc; simp [slotList, hc]
  | (n + 3) => simp [slotGet] at hc

theorem slotGet_isSome (acc : Heaviest3) (r : Nat)
    (hY : acc.2.1.isSome = true → acc.1.isSome = true)
    (hZ : acc.2.2.isSome = true → acc.2.1.isSome = true)
    (hr : r < (slotList acc).length) : (slotGet acc r).isSome = true := by
  obtain ⟨x, y, z⟩ := acc
  cases x with
  | none =>
      cases y with
      | some b => exact absurd (hY (by simp)) (by simp)
      | none =>
          cases z with
          | some c => exact absurd (hZ (by simp)) (by simp)
          | none => simp [slotList] at hr
  | some a =>
      cases y with
      | none =>
          cases z with
          | some c => exact absurd (hZ (by simp)) (by simp)
          | none =>
              simp [slotList] at hr
              match r, hr with
              | 0, _ => simp [slotGet]
      | some b =>
          cases z with
          | none =>
              simp [slotList] at hr
              match r, hr with
              | 0, _ => simp [slotGet]
              | 1, _ => simp [slotGet]
          | some c =>
              simp [slotList] at hr
              match r, hr with
              | 0, _ => simp [slotGet]
              | 1, _ => simp [slotGet]
              | 2, _ => simp [slotGet]

theorem slot_count_bound (rest : List ActivePeer) (c : ActivePeer)
    (hc : c ∈ slotList (heaviest3 rest)) :
    rest.countP (fun q => decide (c.lastNewPeers < q.lastNewPeers)) ≤ 2 := by
  have hinv := foldInv_heaviest3 rest
  obtain ⟨d, hperm, hbound⟩ := hinv.decomp
  have hcnt :=
    hperm.countP_eq (fun q => decide (c.lastNewPeers < q.lastNewPeers))
  rw [List.countP_append] at hcnt
  have hd0 : d.countP (fun q => decide (c.lastNewPeers < q.lastNewPeers))
      = 0 := by
    rw [List.countP_eq_zero]
    intro q hq
    simp only [decide_eq_true_eq]
    exact not_lt.mpr (hbound q hq c hc)
  obtain ⟨s, t, hst⟩ := List.append_of_mem hc
  have hslen : (slotList (heaviest3 rest)).length ≤ 3 := by
    rw [hinv.lenEq]; omega
  have hsc : (slotList (heaviest3 rest)).countP
      (fun q => decide (c.lastNewPeers < q.lastNewPeers)) ≤ 2 := by
    rw [hst] at hslen ⊢
    rw [List.countP_append, List.countP_cons]
    simp only [decide_eq_true_eq, lt_self_iff_false, if_false]
    have h1 := List.countP_le_length
      (p := fun q => decide (c.lastNewPeers < q.lastNewPeers)) (l := s)
    have h2 := List.countP_le_length
      (p := fun q => decide (c.lastNewPeers < q.lastNewPeers)) (l := t)
    simp at hslen
    omega
  omega

/-! ## Claims about peer selection -/

/-- C8: when the verified subset V has fewer than 3 elements,
`select_peers_to_query` returns exactly the peer ids of V, in registry
order — in particular as many candidates as |V|. -/
theorem claim_C8_small_subset (active : List ActivePeer) (r : Nat)
    (h : (get_verified_peers active).length < 3) :
    select_peers_to_query active r =
      some ((get_verified_peers active).map (fun q => q.peerId)) ∧
    ∀ ids, select_peers_to_query active r = some ids →
      ids.length = (get_verified_peers active).length := by
  have hsel : select_peers_to_query active r =
      some ((get_verified_peers active).map (fun q => q.peerId)) := by
    simp only [select_peers_to_query]
    rw [if_pos h]
  refine ⟨hsel, ?_⟩
  intro ids hids
  rw [hsel, Option.some.injEq] at hids
  subst hids
  exact List.length_map _ _

/-- Witness for C8: two verified peers (one unverified entry filtered
out). -/
theorem claim_C8_small_subset_witness :
    select_peers_to_query [⟨3, 1, 5, 2⟩, ⟨4, 0, 9, 1⟩, ⟨5, 2, 0, 0⟩] 0 =
      some ((get_verified_peers
        [⟨3, 1, 5, 2⟩, ⟨4, 0, 9, 1⟩, ⟨5, 2, 0, 0⟩]).map
          (fun q => q.peerId)) ∧
    ∀ ids, select_peers_to_query
        [⟨3, 1, 5, 2⟩, ⟨4, 0, 9, 1⟩, ⟨5, 2, 0, 0⟩] 0 = some ids →
      ids.length = (get_verified_peers
        [⟨3, 1, 5, 2⟩, ⟨4, 0, 9, 1⟩, ⟨5, 2, 0, 0⟩]).length :=
  claim_C8_small_subset [⟨3, 1, 5, 2⟩, ⟨4, 0, 9, 1⟩, ⟨5, 2, 0, 0⟩] 0
    (by decide)

/-- C3: with at least 3 verified peers (distinct ids, as the registry
guarantees) and any admissible random index, selection returns exactly two
ids: the first verified peer's (the latest) and that of a peer drawn from
the non-latest verified peers which at most 2 of them strictly exceed in
the `last_new_peers` metric (i.e. a member of a top-3 set); the two are
distinct.  The uniform draw `gen_range(0..len)` is modelled by `r`. -/
theorem claim_C3_selection (active : List ActivePeer) (r : Nat)
    (h3 : 3 ≤ (get_verified_peers active).length)
    (hnd : ((get_verified_peers active).map (fun q => q.peerId)).Nodup)
    (hr : r < min ((get_verified_peers active).length - 1) 3) :
    ∃ latest rest chosen,
      get_verified_peers active = latest :: rest ∧
      select_peers_to_query active r =
        some [latest.peerId, chosen.peerId] ∧
      chosen ∈ rest ∧
      chosen.peerId ≠ latest.peerId ∧
      rest.countP
        (fun q => decide (chosen.lastNewPeers < q.lastNewPeers)) ≤ 2 := by
  match hV : get_verified_peers active with
  | [] => rw [hV] at h3; simp at h3
  | latest :: rest =>
      rw [hV] at h3 hnd hr
      have hinv := foldInv_heaviest3 rest
      have hrlen : r < (slotList (heaviest3 rest)).length := by
        rw [hinv.lenEq]
        simp at hr ⊢
        omega
      have hsome :=
        slotGet_isSome (heaviest3 rest) r hinv.shapeY hinv.shapeZ hrlen
      obtain ⟨chosen, hchosen⟩ := Option.isSome_iff_exists.mp hsome
      have hmem_slot := slotGet_mem (heaviest3 rest) r chosen hchosen
      obtain ⟨d, hperm, hbound⟩ := hinv.decomp
      have hmem : chosen ∈ rest :=
        hperm.mem_iff.mpr (List.mem_append.mpr (Or.inl hmem_slot))
      refine ⟨latest, rest, chosen, rfl, ?_, hmem, ?_, ?_⟩
      · simp only [select_peers_to_query]
        rw [hV]
        rw [if_neg (not_lt.mpr h3)]
        simp [hchosen]
      · have h1 : latest.peerId ∉ rest.map (fun q => q.peerId) := by
          rw [List.map_cons, List.nodup_cons] at hnd
          exact hnd.1
        intro he
        exact h1 (he ▸ List.mem_map_of_mem (fun q => q.peerId) hmem)
      · exact slot_count_bound rest chosen hmem_slot

/-- Witness for C3: four verified peers, random index 1. -/
theorem claim_C3_selection_witness :
    ∃ latest rest chosen,
      get_verified_peers
        [⟨0, 1, 9, 9⟩, ⟨1, 1, 8, 8⟩, ⟨2, 1, 7, 7⟩, ⟨3, 1, 6, 6⟩] =
          latest :: rest ∧
      select_peers_to_query
        [⟨0, 1, 9, 9⟩, ⟨1, 1, 8, 8⟩, ⟨2, 1, 7, 7⟩, ⟨3, 1, 6, 6⟩] 1 =
        some [latest.peerId, chosen.peerId] ∧
      chosen ∈ rest ∧
      chosen.peerId ≠ latest.peerId ∧
      rest.countP
        (fun q => decide (chosen.lastNewPeers < q.lastNewPeers)) ≤ 2 :=
  claim_C3_selection
    [⟨0, 1, 9, 9⟩, ⟨1, 1, 8, 8⟩, ⟨2, 1, 7, 7⟩, ⟨3, 1, 6, 6⟩] 1
    (by decide) (by decide) (by decide)

/-- C10: with at least 3 verified peers and any index in the range the RNG
draws from, no panic can occur: the fold populates the first
`min(remaining, 3)` slots, the drawn index addresses a populated slot, and
selection returns a value (a `none` result would model a panic). -/
theorem claim_C10_no_panic (active : List ActivePeer) (r : Nat)
    (h3 : 3 ≤ (get_verified_peers active).length)
    (hr : r < min ((get_verified_peers active).length - 1) 3) :
    ∃ latest rest,
      get_verified_peers active = latest :: rest ∧
      (slotList (heaviest3 rest)).length = min rest.length 3 ∧
      (slotGet (heaviest3 rest) r).isSome = true ∧
      (select_peers_to_query active r).isSome = true := by
  match hV : get_verified_peers active with
  | [] => rw [hV] at h3; simp at h3
  | latest :: rest =>
      rw [hV] at h3 hr
      have hinv := foldInv_heaviest3 rest
      have hrlen : r < (slotList (heaviest3 rest)).length := by
        rw [hinv.lenEq]
        simp at hr ⊢
        omega
      have hsome :=
        slotGet_isSome (heaviest3 rest) r hinv.shapeY hinv.shapeZ hrlen
      refine ⟨latest, rest, rfl, hinv.lenEq, hsome, ?_⟩
      obtain ⟨chosen, hchosen⟩ := Option.isSome_iff_exists.mp hsome
      simp only [select_peers_to_query]
      rw [hV]
      rw [if_neg (not_lt.mpr h3)]
      simp [hchosen]

/-- Witness for C10: three verified peers (two non-latest), index 1. -/
theorem claim_C10_no_panic_witness :
    ∃ latest rest,
      get_verified_peers [⟨0, 1, 9, 9⟩, ⟨1, 1, 8, 8⟩, ⟨2, 1, 7, 7⟩] =
        latest :: rest ∧
      (slotList (heaviest3 rest)).length = min rest.length 3 ∧
      (slotGet (heaviest3 rest) 1).isSome = true ∧
      (select_peers_to_query [⟨0, 1, 9, 9⟩, ⟨1, 1, 8, 8⟩, ⟨2, 1, 7, 7⟩]
        1).isSome = true :=
  claim_C10_no_panic [⟨0, 1, 9, 9⟩, ⟨1, 1, 8, 8⟩, ⟨2, 1, 7, 7⟩] 1
    (by decide) (by decide)

/-- C2 counterexample: five verified peers, the four non-latest all tied on
`last_new_peers`.  The fold keeps the three LATEST-encountered tied peers
(ids 2, 3, 4) and excludes the EARLIEST-encountered one (id 1), so whatever
index the RNG draws, the earliest tied peer is never selected — refuting
the claim that the earlier-encountered peer wins a tie and is kept. -/
theorem claim_C2_counterexample :
    heaviest3 [⟨1, 1, 5, 3⟩, ⟨2, 1, 5, 2⟩, ⟨3, 1, 5, 1⟩, ⟨4, 1, 5, 0⟩] =
      (some ⟨2, 1, 5, 2⟩, some ⟨3, 1, 5, 1⟩, some ⟨4, 1, 5, 0⟩) ∧
    ActivePeer.lastNewPeers ⟨1, 1, 5, 3⟩ =
      ActivePeer.lastNewPeers ⟨4, 1, 5, 0⟩ ∧
    (⟨1, 1, 5, 3⟩ : ActivePeer) ∉
      slotList (heaviest3
        [⟨1, 1, 5, 3⟩, ⟨2, 1, 5, 2⟩, ⟨3, 1, 5, 1⟩, ⟨4, 1, 5, 0⟩]) ∧
    (⟨4, 1, 5, 0⟩ : ActivePeer) ∈
      slotList (heaviest3
        [⟨1, 1, 5, 3⟩, ⟨2, 1, 5, 2⟩, ⟨3, 1, 5, 1⟩, ⟨4, 1, 5, 0⟩]) ∧
    select_peers_to_query
      [⟨0, 1, 9, 4⟩, ⟨1, 1, 5, 3⟩, ⟨2, 1, 5, 2⟩, ⟨3, 1, 5, 1⟩,
        ⟨4, 1, 5, 0⟩] 0 = some [0, 2] ∧
    select_peers_to_query
      [⟨0, 1, 9, 4⟩, ⟨1, 1, 5, 3⟩, ⟨2, 1, 5, 2⟩, ⟨3, 1, 5, 1⟩,
        ⟨4, 1, 5, 0⟩] 1 = some [0, 3] ∧
    select_peers_to_query
      [⟨0, 1, 9, 4⟩, ⟨1, 1, 5, 3⟩, ⟨2, 1, 5, 2⟩, ⟨3, 1, 5, 1⟩,
        ⟨4, 1, 5, 0⟩] 2 = some [0, 4] := by
  decide

/-- C2 amended: ties are broken in favor of the LATER-encountered peer.
With a full accumulator, an incoming peer whose metric is greater than or
equal to the minimum slot's metric — including an exact tie — enters the
slots and the minimum slot's (earlier-encountered) peer is the one
excluded; an incoming peer is excluded only when its metric is strictly
below the minimum slot's. -/
theorem claim_C2_tie_later_wins (x y z p : ActivePeer) :
    (x.lastNewPeers ≤ p.lastNewPeers →
      p ∈ slotList (heaviestStep (some x, some y, some z) p) ∧
      ∀ q ∈ slotList (heaviestStep (some x, some y, some z) p),
        q = y ∨ q = z ∨ q = p) ∧
    (p.lastNewPeers < x.lastNewPeers →
      heaviestStep (some x, some y, some z) p = (some x, some y, some z)) := by
  constructor
  · intro hle
    have h1 : ¬p.lastNewPeers < x.lastNewPeers := not_lt.mpr hle
    by_cases h2 : p.lastNewPeers < y.lastNewPeers
    · constructor
      · simp [heaviestStep, h1, h2, slotList]
      · intro q hq
        simp [heaviestStep, h1, h2, slotList] at hq
        tauto
    · by_cases h3 : p.lastNewPeers < z.lastNewPeers
      · constructor
        · simp [heaviestStep, h1, h2, h3, slotList]
        · intro q hq
          simp [heaviestStep, h1, h2, h3, slotList] at hq
          tauto
      · constructor
        · simp [heaviestStep, h1, h2, h3, slotList]
        · intro q hq
          simp [heaviestStep, h1, h2, h3, slotList] at hq
          tauto
  · intro hlt
    simp [heaviestStep, hlt]

/-- Witness for the amended C2: an exact tie with the minimum slot. -/
theorem claim_C2_tie_later_wins_witness :
    (ActivePeer.lastNewPeers ⟨1, 1, 5, 3⟩ ≤
        ActivePeer.lastNewPeers ⟨4, 1, 5, 0⟩ →
      (⟨4, 1, 5, 0⟩ : ActivePeer) ∈
        slotList (heaviestStep
          (some ⟨1, 1, 5, 3⟩, some ⟨2, 1, 6, 2⟩, some ⟨3, 1, 7, 1⟩)
          ⟨4, 1, 5, 0⟩) ∧
      ∀ q ∈ slotList (heaviestStep
          (some ⟨1, 1, 5, 3⟩, some ⟨2, 1, 6, 2⟩, some ⟨3, 1, 7, 1⟩)
          ⟨4, 1, 5, 0⟩),
        q = ⟨2, 1, 6, 2⟩ ∨ q = ⟨3, 1, 7, 1⟩ ∨ q = ⟨4, 1, 5, 0⟩) ∧
    (ActivePeer.lastNewPeers ⟨4, 1, 5, 0⟩ <
        ActivePeer.lastNewPeers ⟨1, 1, 5, 3⟩ →
      heaviestStep (some ⟨1, 1, 5, 3⟩, some ⟨2, 1, 6, 2⟩, some ⟨3, 1, 7, 1⟩)
          ⟨4, 1, 5, 0⟩ =
        (some ⟨1, 1, 5, 3⟩, some ⟨2, 1, 6, 2⟩, some ⟨3, 1, 7, 1⟩)) :=
  claim_C2_tie_later_wins ⟨1, 1, 5, 3⟩ ⟨2, 1, 6, 2⟩ ⟨3, 1, 7, 1⟩ ⟨4, 1, 5, 0⟩

theorem getLast_le_of_chain (l : List ActivePeer) (p : ActivePeer)
    (hc : l.Chain'
      (fun a b => b.lastVerificationOrder ≤ a.lastVerificationOrder))
    (hp : l.getLast? = some p) :
    ∀ q ∈ l, p.lastVerificationOrder ≤ q.lastVerificationOrder := by
  induction l with
  | nil => simp at hp
  | cons a t ih =>
      cases t with
      | nil =>
          simp at hp
          subst hp
          intro q hq
          simp at hq
          subst hq
          exact le_refl _
      | cons b t2 =>
          have hcc := List.chain'_cons.mp hc
          have hp2 : (b :: t2).getLast? = some p := by
            rwa [List.getLast?_cons_cons] at hp
          have ihh := ih hcc.2 hp2
          intro q hq
          rcases List.mem_cons.mp hq with rfl | hq2
          · exact (ihh b (by simp)).trans hcc.1
          · exact ihh q hq2

/-- C9: under the registry's recency ordering (most recently reverified
first), the reverify tick selects exactly the single oldest
(least-recently-reverified) peer, and on an empty registry selects nothing
— the tick spawns no verification and changes no state. -/
theorem claim_C9_reverify_oldest (active : List ActivePeer)
    (hc : active.Chain'
      (fun a b => b.lastVerificationOrder ≤ a.lastVerificationOrder)) :
    (active = [] → reverify_fn active = none) ∧
    (∀ p, get_oldest active = some p →
      reverify_fn active = some (ReverifyOutcome.verifyPeer p.peerId) ∧
      ∀ q ∈ active,
        p.lastVerificationOrder ≤ q.lastVerificationOrder) := by
  constructor
  · intro he
    subst he
    rfl
  · intro p hp
    constructor
    · simp [reverify_fn, peer_to_reverify, hp]
    · exact getLast_le_of_chain active p hc (by simpa [get_oldest] using hp)

/-- Witness for C9: two peers with decreasing recency order; the tick
picks the last (oldest) one. -/
theorem claim_C9_reverify_oldest_witness :
    (([⟨1, 1, 0, 5⟩, ⟨2, 0, 0, 3⟩] : List ActivePeer) = [] →
      reverify_fn [⟨1, 1, 0, 5⟩, ⟨2, 0, 0, 3⟩] = none) ∧
    (∀ p, get_oldest [⟨1, 1, 0, 5⟩, ⟨2, 0, 0, 3⟩] = some p →
      reverify_fn [⟨1, 1, 0, 5⟩, ⟨2, 0, 0, 3⟩] =
        some (ReverifyOutcome.verifyPeer p.peerId) ∧
      ∀ q ∈ ([⟨1, 1, 0, 5⟩, ⟨2, 0, 0, 3⟩] : List ActivePeer),
        p.lastVerificationOrder ≤ q.lastVerificationOrder) :=
  claim_C9_reverify_oldest [⟨1, 1, 0, 5⟩, ⟨2, 0, 0, 3⟩]
    (by simp [List.chain'_cons])
